import Mathlib

/-!
# Variant array helpers of gdnative-go (`gdnative/variant.c`)

A shallow embedding of the three C helpers

* `go_godot_variant_build_array`
* `go_godot_variant_add_element`
* `go_godot_new_variant`

over an explicit memory: heap allocations made by `malloc`, and the automatic
storage of function activations.  The sizes the C source leaves to the target
(`sizeof(godot_variant *)`, `sizeof(godot_variant)`, the widths of `size_t` and
`int`) are the fields of a `Platform`.
-/

namespace GDNative

/-! ## Target parameters -/

/-- The target-dependent constants used by `variant.c`. -/
structure Platform where
  /-- `sizeof(godot_variant *)` -/
  ptrSize : Nat
  /-- `sizeof(godot_variant)` -/
  varSize : Nat
  /-- width in bits of `size_t` -/
  sizeBits : Nat
  /-- width in bits of `int` -/
  intBits : Nat
  /-- an object pointer occupies at least one byte -/
  ptrSize_pos : 0 < ptrSize

/-- 64-bit targets: 8-byte pointers, 64-bit `size_t`, 32-bit `int`,
`GODOT_VARIANT_SIZE = 16 + sizeof(void *)`. -/
def lp64 : Platform := ⟨8, 24, 64, 32, by decide⟩

/-- 32-bit targets: 4-byte pointers, 32-bit `size_t`, 32-bit `int`. -/
def ilp32 : Platform := ⟨4, 20, 32, 32, by decide⟩

/-- `SIZE_MAX + 1`. -/
def Platform.sizeMod (P : Platform) : Nat := 2 ^ P.sizeBits

/-- `INT_MAX` of the target. -/
def Platform.INT_MAX (P : Platform) : Int := 2 ^ (P.intBits - 1) - 1

/-- Conversion of an `int` operand to `size_t` (C11 6.3.1.3: reduce modulo
`SIZE_MAX + 1`), as the usual arithmetic conversions do for the operand
`length` of `sizeof(godot_variant *) * length`, `size_t` having a conversion
rank no lower than that of `int`. -/
def to_size_t (P : Platform) (x : Int) : Nat := (x % (P.sizeMod : Int)).toNat

/-- Multiplication in `size_t` (unsigned, wraps modulo `SIZE_MAX + 1`). -/
def size_mul (P : Platform) (a b : Nat) : Nat := (a * b) % P.sizeMod

/-! ## Memory -/

/-- A pointer value: null, the base address of a heap allocation, or the
address of the local `copy` of a function activation. -/
inductive Ptr where
  | null
  | heap (block : Nat)
  | stack (frame : Nat)
deriving DecidableEq, Repr

/-- The engine's variant record: an opaque, byte-copyable value. -/
structure godot_variant where
  bits : Nat
deriving DecidableEq, Repr

/-- What a heap allocation currently holds. -/
inductive Obj where
  /-- fresh from the allocator, nothing stored yet -/
  | raw
  /-- used as `godot_variant *[]`: the slots written so far -/
  | ptrs (cells : List (Nat × Ptr))
  /-- used as one `godot_variant` -/
  | variant (v : godot_variant)
deriving DecidableEq, Repr

/-- A heap allocation: the byte count it was requested with and its content. -/
structure Block where
  size : Nat
  obj : Obj
deriving DecidableEq, Repr

/-- The automatic storage of one activation: a `godot_variant` local.  The
record stays in the list after the activation has returned, marked dead, so
that a frame number is never reused. -/
structure Frame where
  live : Bool
  copy : godot_variant
deriving DecidableEq, Repr

/-- Memory: the heap allocations (a block's number is its position; nothing is
ever freed by this layer), the activations, and the log of byte counts
requested from the allocator. -/
structure Mem where
  heap : List Block
  frames : List Frame
  requests : List Nat
deriving DecidableEq, Repr

/-- Memory before anything has been allocated. -/
def Mem.empty : Mem := ⟨[], [], []⟩

/-- Undefined behaviour reached by a memory access. -/
inductive Fault where
  /-- `*element` does not read a live variant -/
  | invalid_element
  /-- `array` is not the base of storage usable as a pointer array -/
  | invalid_array
  /-- the slot written lies outside the allocation -/
  | out_of_bounds
deriving DecidableEq, Repr

deriving instance DecidableEq for Except

/-- The C library allocator.  Whether a request is granted is the
environment's choice, passed as `grant`; a granted request yields a fresh
block, a refused one the null pointer.  Every request is logged. -/
def malloc (grant : Bool) (size : Nat) (m : Mem) : Ptr × Mem :=
  if grant then
    (Ptr.heap m.heap.length, ⟨m.heap ++ [⟨size, Obj.raw⟩], m.frames, m.requests ++ [size]⟩)
  else
    (Ptr.null, ⟨m.heap, m.frames, m.requests ++ [size]⟩)

/-- Reading `*p` at type `godot_variant`. -/
def load_variant (m : Mem) (p : Ptr) : Option godot_variant :=
  match p with
  | Ptr.null => none
  | Ptr.heap b =>
    match m.heap[b]? with
    | some ⟨_, Obj.variant v⟩ => some v
    | _ => none
  | Ptr.stack f =>
    match m.frames[f]? with
    | some ⟨true, v⟩ => some v
    | _ => none

/-- The slots of a block viewed as `godot_variant *[]`, when it can be. -/
def Block.cells (b : Block) : Option (List (Nat × Ptr)) :=
  match b.obj with
  | Obj.raw => some []
  | Obj.ptrs cells => some cells
  | Obj.variant _ => none

/-- Reading `array[index]`. -/
def load_ptr (P : Platform) (m : Mem) (array : Ptr) (index : Int) : Option Ptr :=
  match array with
  | Ptr.heap b =>
    match m.heap[b]? with
    | none => none
    | some blk =>
      match blk.cells with
      | none => none
      | some cells =>
        if 0 ≤ index ∧ (index.toNat + 1) * P.ptrSize ≤ blk.size then
          cells.lookup index.toNat
        else none
  | _ => none

/-- The assignment `array[index] = value`. -/
def store_ptr (P : Platform) (array : Ptr) (index : Int) (value : Ptr) (m : Mem) :
    Except Fault Mem :=
  match array with
  | Ptr.heap b =>
    match m.heap[b]? with
    | none => Except.error Fault.invalid_array
    | some blk =>
      match blk.cells with
      | none => Except.error Fault.invalid_array
      | some cells =>
        if 0 ≤ index ∧ (index.toNat + 1) * P.ptrSize ≤ blk.size then
          Except.ok ⟨m.heap.set b ⟨blk.size, Obj.ptrs ((index.toNat, value) :: cells)⟩,
            m.frames, m.requests⟩
        else Except.error Fault.out_of_bounds
  | _ => Except.error Fault.invalid_array

/-- Whether `array[index]` names a slot inside storage usable as a pointer
array: `array` is the base of a block not holding a variant, and the slot's
bytes lie within the block. -/
def slot_in_range (P : Platform) (m : Mem) (array : Ptr) (index : Int) : Bool :=
  match array with
  | Ptr.heap b =>
    match m.heap[b]? with
    | none => false
    | some blk =>
      blk.cells.isSome && decide (0 ≤ index ∧ (index.toNat + 1) * P.ptrSize ≤ blk.size)
  | _ => false

/-- The caller's assignment `*p = v` to a variant it owns. -/
def store_variant (P : Platform) (p : Ptr) (v : godot_variant) (m : Mem) : Except Fault Mem :=
  match p with
  | Ptr.null => Except.error Fault.invalid_element
  | Ptr.heap b =>
    match m.heap[b]? with
    | some ⟨size, Obj.raw⟩ =>
      if P.varSize ≤ size then
        Except.ok ⟨m.heap.set b ⟨size, Obj.variant v⟩, m.frames, m.requests⟩
      else Except.error Fault.out_of_bounds
    | some ⟨size, Obj.variant _⟩ =>
      Except.ok ⟨m.heap.set b ⟨size, Obj.variant v⟩, m.frames, m.requests⟩
    | _ => Except.error Fault.invalid_element
  | Ptr.stack f =>
    match m.frames[f]? with
    | some ⟨true, _⟩ => Except.ok ⟨m.heap, m.frames.set f ⟨true, v⟩, m.requests⟩
    | _ => Except.error Fault.invalid_element

/-- End of an activation: its automatic storage stops being live. -/
def leave (f : Nat) (m : Mem) : Mem :=
  match m.frames[f]? with
  | some fr => ⟨m.heap, m.frames.set f ⟨false, fr.copy⟩, m.requests⟩
  | none => m

/-! ## The three functions of `variant.c` -/

/-- The byte count `sizeof(godot_variant *) * length` as C evaluates it. -/
def array_bytes (P : Platform) (length : Int) : Nat :=
  size_mul P P.ptrSize (to_size_t P length)

/-- Source:
```c
godot_variant **go_godot_variant_build_array(int length) {
	godot_variant **arr = malloc(sizeof(godot_variant *) * length);
	return arr;
}
```
-/
def go_godot_variant_build_array (P : Platform) (grant : Bool) (length : Int) (m : Mem) :
    Ptr × Mem :=
  let arr := malloc grant (array_bytes P length) m
  arr

/-- The body of `go_godot_variant_add_element`, up to but not including the
return: `godot_variant copy = *element; array[index] = &copy;`.  The local
`copy` lives in a new frame, numbered `m.frames.length`. -/
def add_element_body (P : Platform) (array element : Ptr) (index : Int) (m : Mem) :
    Except Fault Mem :=
  match load_variant m element with
  | none => Except.error Fault.invalid_element
  | some v =>
    let entered : Mem := ⟨m.heap, m.frames ++ [⟨true, v⟩], m.requests⟩
    store_ptr P array index (Ptr.stack m.frames.length) entered

/-- Source:
```c
void go_godot_variant_add_element(godot_variant **array, godot_variant *element,
				  int index) {
	godot_variant copy = *element;
	array[index] = &copy;
}
```
-/
def go_godot_variant_add_element (P : Platform) (array element : Ptr) (index : Int) (m : Mem) :
    Except Fault Mem :=
  match add_element_body P array element index m with
  | Except.error e => Except.error e
  | Except.ok m1 => Except.ok (leave m.frames.length m1)

/-- Source:
```c
godot_variant *go_godot_new_variant() {
	godot_variant *var = malloc(sizeof(godot_variant));
	return var;
}
```
-/
def go_godot_new_variant (P : Platform) (grant : Bool) (m : Mem) : Ptr × Mem :=
  let var := malloc grant P.varSize m
  var

/-! ## Sequences of calls -/

/-- One step of a client of this layer: a call to one of the three functions
(with the allocator's choice where one is made), or an assignment `*p = v` to
a variant the client owns. -/
inductive Call where
  | build_array (grant : Bool) (length : Int)
  | add_element (array element : Ptr) (index : Int)
  | new_variant (grant : Bool)
  | assign (p : Ptr) (v : godot_variant)
deriving DecidableEq, Repr

/-- Run one step; the first component is the pointer the call returned, if it
returns one. -/
def exec (P : Platform) (c : Call) (m : Mem) : Except Fault (Option Ptr × Mem) :=
  match c with
  | Call.build_array grant length =>
    let r := go_godot_variant_build_array P grant length m
    Except.ok (some r.1, r.2)
  | Call.add_element array element index =>
    match go_godot_variant_add_element P array element index m with
    | Except.error e => Except.error e
    | Except.ok m1 => Except.ok (none, m1)
  | Call.new_variant grant =>
    let r := go_godot_new_variant P grant m
    Except.ok (some r.1, r.2)
  | Call.assign p v =>
    match store_variant P p v m with
    | Except.error e => Except.error e
    | Except.ok m1 => Except.ok (none, m1)

/-- Run a sequence of steps, collecting what each returned. -/
def run (P : Platform) : List Call → Mem → Except Fault (List (Option Ptr) × Mem)
  | [], m => Except.ok ([], m)
  | c :: cs, m =>
    match exec P c m with
    | Except.error e => Except.error e
    | Except.ok (r, m1) =>
      match run P cs m1 with
      | Except.error e => Except.error e
      | Except.ok (rs, m2) => Except.ok (r :: rs, m2)

/-! ## The scenario of the specification -/

/-- A variant holding the integer 42. -/
def v42 : godot_variant := ⟨42⟩

/-- The calls `a := build_array(3)`, `v0 := new_variant()`, `*v0 = 42`. -/
def scenario_setup : List Call :=
  [Call.build_array true 3, Call.new_variant true, Call.assign (Ptr.heap 1) v42]

/-- Memory of a 64-bit target after `scenario_setup`: block 0 is the array `a`
(24 bytes, three slots, nothing stored), block 1 is `v0`, holding 42. -/
def scenario_mem : Mem :=
  ⟨[⟨24, Obj.raw⟩, ⟨24, Obj.variant v42⟩], [], [24, 24]⟩

/-- Memory of a 32-bit target holding one live variant, in block 0. -/
def one_variant_mem : Mem := ⟨[⟨20, Obj.variant v42⟩], [], [20]⟩

/-! ## Arithmetic of the requested byte count -/

theorem sizeMod_pos (P : Platform) : 0 < P.sizeMod := by
  unfold Platform.sizeMod
  exact Nat.pos_pow_of_pos _ (by decide)

/-- The byte count as an integer is `sizeof(godot_variant *) * length` reduced
modulo `SIZE_MAX + 1`. -/
theorem array_bytes_cast (P : Platform) (length : Int) :
    (array_bytes P length : Int) = ((P.ptrSize : Int) * length) % (P.sizeMod : Int) := by
  have hM : (0 : Int) < (P.sizeMod : Int) := by exact_mod_cast sizeMod_pos P
  unfold array_bytes size_mul to_size_t
  have h1 : ((length % (P.sizeMod : Int)).toNat : Int) = length % (P.sizeMod : Int) :=
    Int.toNat_of_nonneg (Int.emod_nonneg _ (ne_of_gt hM))
  push_cast
  rw [h1, Int.mul_emod, Int.emod_emod_of_dvd _ (dvd_refl _), ← Int.mul_emod]

/-- Without wraparound the byte count is the exact product. -/
theorem array_bytes_exact (P : Platform) (length : Int) (h0 : 0 ≤ length)
    (hfit : (P.ptrSize : Int) * length < (P.sizeMod : Int)) :
    array_bytes P length = P.ptrSize * length.toNat := by
  have hc := array_bytes_cast P length
  have hnn : (0 : Int) ≤ (P.ptrSize : Int) * length := mul_nonneg (Int.natCast_nonneg _) h0
  rw [Int.emod_eq_of_lt hnn hfit] at hc
  have hl : ((length.toNat : Nat) : Int) = length := Int.toNat_of_nonneg h0
  have : (array_bytes P length : Int) = ((P.ptrSize * length.toNat : Nat) : Int) := by
    rw [hc]; push_cast; rw [hl]
  exact_mod_cast this

/-- Slot `i` fits in `sizeof(godot_variant *) * n` bytes exactly when `i < n`. -/
theorem slot_fits_iff (P : Platform) (n i : Int) (hn : 0 ≤ n) :
    (0 ≤ i ∧ (i.toNat + 1) * P.ptrSize ≤ P.ptrSize * n.toNat) ↔ (0 ≤ i ∧ i < n) := by
  have hp := P.ptrSize_pos
  constructor
  · rintro ⟨hi, hle⟩
    refine ⟨hi, ?_⟩
    rw [Nat.mul_comm] at hle
    have := Nat.le_of_mul_le_mul_left hle hp
    omega
  · rintro ⟨hi, hlt⟩
    refine ⟨hi, ?_⟩
    rw [Nat.mul_comm]
    exact Nat.mul_le_mul_left _ (by omega)

/-! ## Accesses to a block fresh from the allocator -/

theorem malloc_grant (size : Nat) (m : Mem) :
    malloc true size m =
      (Ptr.heap m.heap.length,
        ⟨m.heap ++ [⟨size, Obj.raw⟩], m.frames, m.requests ++ [size]⟩) := by
  simp [malloc]

/-- A pointer store into a block that is still raw succeeds exactly within
the bytes the block was requested with. -/
theorem store_ptr_fresh (P : Platform) (heap : List Block) (fr : List Frame) (rq : List Nat)
    (size : Nat) (i : Int) (v : Ptr) :
    store_ptr P (Ptr.heap heap.length) i v ⟨heap ++ [⟨size, Obj.raw⟩], fr, rq⟩ =
      if 0 ≤ i ∧ (i.toNat + 1) * P.ptrSize ≤ size then
        Except.ok ⟨heap ++ [⟨size, Obj.ptrs [(i.toNat, v)]⟩], fr, rq⟩
      else Except.error Fault.out_of_bounds := by
  simp [store_ptr, Block.cells]

/-! ## Effect of `go_godot_variant_add_element` -/

/-- The block an in-range slot lies in. -/
theorem slot_in_range_inv (P : Platform) (m : Mem) (array : Ptr) (index : Int)
    (h : slot_in_range P m array index = true) :
    ∃ b blk cells, array = Ptr.heap b ∧ m.heap[b]? = some blk ∧ blk.cells = some cells ∧
      0 ≤ index ∧ (index.toNat + 1) * P.ptrSize ≤ blk.size := by
  unfold slot_in_range at h
  cases array with
  | null => simp at h
  | stack f => simp at h
  | heap b =>
    simp only at h
    cases hb : m.heap[b]? with
    | none => simp [hb] at h
    | some blk =>
      simp only [hb, Bool.and_eq_true, decide_eq_true_eq] at h
      obtain ⟨hc, hi, hle⟩ := h
      obtain ⟨cells, hcells⟩ := Option.isSome_iff_exists.mp hc
      exact ⟨b, blk, cells, rfl, hb, hcells, hi, hle⟩

/-- A pointer store succeeds exactly on in-range slots. -/
theorem store_ptr_ok_iff (P : Platform) (m : Mem) (array : Ptr) (index : Int) (v : Ptr) :
    (∃ m', store_ptr P array index v m = Except.ok m') ↔ slot_in_range P m array index = true := by
  unfold store_ptr slot_in_range
  cases array with
  | null => simp
  | stack f => simp
  | heap b =>
    simp only
    cases hb : m.heap[b]? with
    | none => simp
    | some blk =>
      cases hc : blk.cells with
      | none => simp [hc]
      | some cells =>
        by_cases hr : 0 ≤ index ∧ (index.toNat + 1) * P.ptrSize ≤ blk.size
        · simp [hr, hc]
        · simp [hr, hc]

/-- What a call with a live element and an in-range slot does, written out:
the state at the end of the body, and the state after the return. -/
theorem add_element_spec (P : Platform) (m : Mem) (array element : Ptr) (index : Int)
    (v : godot_variant) (hel : load_variant m element = some v)
    (hin : slot_in_range P m array index = true) :
    ∃ b blk cells, array = Ptr.heap b ∧ m.heap[b]? = some blk ∧ blk.cells = some cells ∧
      0 ≤ index ∧ (index.toNat + 1) * P.ptrSize ≤ blk.size ∧
      add_element_body P array element index m = Except.ok
        ⟨m.heap.set b ⟨blk.size, Obj.ptrs ((index.toNat, Ptr.stack m.frames.length) :: cells)⟩,
          m.frames ++ [⟨true, v⟩], m.requests⟩ ∧
      go_godot_variant_add_element P array element index m = Except.ok
        ⟨m.heap.set b ⟨blk.size, Obj.ptrs ((index.toNat, Ptr.stack m.frames.length) :: cells)⟩,
          m.frames ++ [⟨false, v⟩], m.requests⟩ := by
  obtain ⟨b, blk, cells, rfl, hb, hc, hi, hle⟩ := slot_in_range_inv P m array index hin
  have hbody : add_element_body P (Ptr.heap b) element index m = Except.ok
      ⟨m.heap.set b ⟨blk.size, Obj.ptrs ((index.toNat, Ptr.stack m.frames.length) :: cells)⟩,
        m.frames ++ [⟨true, v⟩], m.requests⟩ := by
    simp [add_element_body, hel, store_ptr, hb, hc, hi, hle]
  refine ⟨b, blk, cells, rfl, hb, hc, hi, hle, hbody, ?_⟩
  simp [go_godot_variant_add_element, hbody, leave]

theorem cells_ptrs (sz : Nat) (cs : List (Nat × Ptr)) :
    (⟨sz, Obj.ptrs cs⟩ : Block).cells = some cs := rfl

/-- A block number that reads back a block is below the heap's length. -/
theorem block_lt_length (m : Mem) (b : Nat) (blk : Block) (hb : m.heap[b]? = some blk) :
    b < m.heap.length := by
  rcases Nat.lt_or_ge b m.heap.length with h | h
  · exact h
  · rw [List.getElem?_eq_none h] at hb; cases hb

/-- No frame numbered `m.frames.length` exists yet in `m`. -/
theorem load_variant_next_frame (m : Mem) : load_variant m (Ptr.stack m.frames.length) = none := by
  simp [load_variant]

/-- Replacing a pointer-array block by a pointer-array block and appending a
dead frame changes no variant read. -/
theorem load_variant_after_store (m : Mem) (b : Nat) (blk : Block) (cells cs : List (Nat × Ptr))
    (sz : Nat) (v : godot_variant) (hb : m.heap[b]? = some blk) (hc : blk.cells = some cells)
    (p : Ptr) :
    load_variant ⟨m.heap.set b ⟨sz, Obj.ptrs cs⟩, m.frames ++ [⟨false, v⟩], m.requests⟩ p
      = load_variant m p := by
  cases p with
  | null => rfl
  | heap b2 =>
    by_cases hbb : b = b2
    · subst hbb
      have hlt : b < m.heap.length := by
        rcases Nat.lt_or_ge b m.heap.length with h | h
        · exact h
        · rw [List.getElem?_eq_none h] at hb; cases hb
      obtain ⟨size, obj⟩ := blk
      cases obj with
      | variant w => simp [Block.cells] at hc
      | raw => simp [load_variant, hb, hlt]
      | ptrs c => simp [load_variant, hb, hlt]
    · simp [load_variant, List.getElem?_set_ne hbb]
  | stack f =>
    rcases Nat.lt_trichotomy f m.frames.length with h | h | h
    · simp [load_variant, List.getElem?_append_left h]
    · subst h
      simp [load_variant]
    · have h1 : m.frames.length ≤ f := Nat.le_of_lt h
      have h2 : (m.frames ++ [(⟨false, v⟩ : Frame)]).length ≤ f := by simp; omega
      simp [load_variant, List.getElem?_eq_none h1, List.getElem?_eq_none h2]

/-- A pointer store into slot `i` of block `b` changes no other slot read. -/
theorem load_ptr_after_store (P : Platform) (m : Mem) (b : Nat) (blk : Block)
    (cells : List (Nat × Ptr)) (fr : List Frame) (i : Int) (v : Ptr)
    (hb : m.heap[b]? = some blk) (hc : blk.cells = some cells) (hi : 0 ≤ i)
    (a : Ptr) (j : Int) (hne : ¬ (a = Ptr.heap b ∧ j = i)) :
    load_ptr P ⟨m.heap.set b ⟨blk.size, Obj.ptrs ((i.toNat, v) :: cells)⟩, fr, m.requests⟩ a j
      = load_ptr P m a j := by
  cases a with
  | null => rfl
  | stack f => rfl
  | heap b2 =>
    by_cases hbb : b = b2
    · subst hbb
      have hlt : b < m.heap.length := by
        rcases Nat.lt_or_ge b m.heap.length with h | h
        · exact h
        · rw [List.getElem?_eq_none h] at hb; cases hb
      have hji : j ≠ i := fun h => hne ⟨rfl, h⟩
      by_cases hr : 0 ≤ j ∧ (j.toNat + 1) * P.ptrSize ≤ blk.size
      · have hnat : (j.toNat == i.toNat) = false := by
          simp only [beq_eq_false_iff_ne]
          omega
        simp [load_ptr, hb, hlt, hc, cells_ptrs, hr, List.lookup_cons, hnat]
      · simp [load_ptr, hb, hlt, hc, cells_ptrs, hr]
    · simp [load_ptr, List.getElem?_set_ne hbb]

/-- The slot just written reads back the stored pointer. -/
theorem load_ptr_stored (P : Platform) (m : Mem) (b : Nat) (blk : Block)
    (cells : List (Nat × Ptr)) (fr : List Frame) (i : Int) (v : Ptr)
    (hb : m.heap[b]? = some blk) (hi : 0 ≤ i) (hle : (i.toNat + 1) * P.ptrSize ≤ blk.size) :
    load_ptr P ⟨m.heap.set b ⟨blk.size, Obj.ptrs ((i.toNat, v) :: cells)⟩, fr, m.requests⟩
      (Ptr.heap b) i = some v := by
  have hlt : b < m.heap.length := by
    rcases Nat.lt_or_ge b m.heap.length with h | h
    · exact h
    · rw [List.getElem?_eq_none h] at hb; cases hb
  simp [load_ptr, hlt, cells_ptrs, hi, hle, List.lookup_cons]

/-- The allocator leaves every variant read as it was. -/
theorem load_variant_malloc (grant : Bool) (size : Nat) (m : Mem) (p : Ptr) :
    load_variant (malloc grant size m).2 p = load_variant m p := by
  cases grant with
  | false => cases p <;> simp [malloc, load_variant]
  | true =>
    cases p with
    | null => rfl
    | stack f => simp [malloc, load_variant]
    | heap b =>
      rcases Nat.lt_trichotomy b m.heap.length with h | h | h
      · simp [malloc, load_variant, List.getElem?_append_left h]
      · subst h
        simp [malloc, load_variant]
      · have h1 : m.heap.length ≤ b := Nat.le_of_lt h
        have h2 : (m.heap ++ [(⟨size, Obj.raw⟩ : Block)]).length ≤ b := by simp; omega
        simp [malloc, load_variant, List.getElem?_eq_none h1, List.getElem?_eq_none h2]

/-- A defined call had a live element and an in-range slot. -/
theorem add_element_ok_inv (P : Platform) (m m' : Mem) (array element : Ptr) (index : Int)
    (h : go_godot_variant_add_element P array element index m = Except.ok m') :
    (∃ v, load_variant m element = some v) ∧ slot_in_range P m array index = true := by
  unfold go_godot_variant_add_element add_element_body at h
  cases hel : load_variant m element with
  | none => simp [hel] at h
  | some v =>
    refine ⟨⟨v, rfl⟩, ?_⟩
    simp only [hel] at h
    cases hs : store_ptr P array index (Ptr.stack m.frames.length)
        ⟨m.heap, m.frames ++ [⟨true, v⟩], m.requests⟩ with
    | error e => simp [hs] at h
    | ok m1 =>
      have := (store_ptr_ok_iff P _ array index _).1 ⟨m1, hs⟩
      simpa [slot_in_range] using this

/-- With a live element, a slot beyond the bytes of a pointer-array block makes
the call an out-of-bounds write. -/
theorem add_element_out_of_bounds (P : Platform) (m : Mem) (b : Nat) (blk : Block)
    (element : Ptr) (index : Int) (v : godot_variant)
    (hel : load_variant m element = some v) (hb : m.heap[b]? = some blk)
    (hc : blk.cells.isSome = true)
    (hout : ¬ (0 ≤ index ∧ (index.toNat + 1) * P.ptrSize ≤ blk.size)) :
    go_godot_variant_add_element P (Ptr.heap b) element index m
      = Except.error Fault.out_of_bounds := by
  obtain ⟨cells, hcells⟩ := Option.isSome_iff_exists.mp hc
  simp [go_godot_variant_add_element, add_element_body, hel, store_ptr, hb, hcells, hout]

/-! ## Sequences of calls: the heap only grows -/

theorem store_ptr_heap_length (P : Platform) (array : Ptr) (index : Int) (v : Ptr) (m m' : Mem)
    (h : store_ptr P array index v m = Except.ok m') : m'.heap.length = m.heap.length := by
  unfold store_ptr at h
  split at h
  · split at h
    · cases h
    · split at h
      · cases h
      · split at h
        · cases h; simp
        · cases h
  · cases h

theorem store_variant_heap_length (P : Platform) (p : Ptr) (v : godot_variant) (m m' : Mem)
    (h : store_variant P p v m = Except.ok m') : m'.heap.length = m.heap.length := by
  unfold store_variant at h
  split at h
  · cases h
  · split at h
    · split at h
      · cases h; simp
      · cases h
    · cases h; simp
    · cases h
  · split at h
    · cases h; rfl
    · cases h

theorem leave_heap (f : Nat) (m : Mem) : (leave f m).heap = m.heap := by
  unfold leave
  split <;> rfl

theorem add_element_heap_length (P : Platform) (array element : Ptr) (index : Int) (m m' : Mem)
    (h : go_godot_variant_add_element P array element index m = Except.ok m') :
    m'.heap.length = m.heap.length := by
  unfold go_godot_variant_add_element at h
  split at h
  · cases h
  · rename_i m1 hbody
    cases h
    rw [leave_heap]
    unfold add_element_body at hbody
    split at hbody
    · cases hbody
    · have h2 := store_ptr_heap_length P _ _ _ _ _ hbody
      exact h2

/-- No step removes a heap block. -/
theorem exec_heap_mono (P : Platform) (c : Call) (m m' : Mem) (r : Option Ptr)
    (h : exec P c m = Except.ok (r, m')) : m.heap.length ≤ m'.heap.length := by
  cases c with
  | build_array grant length =>
    simp only [exec, Except.ok.injEq, Prod.mk.injEq] at h
    rw [← h.2]
    cases grant <;> simp [go_godot_variant_build_array, malloc]
  | new_variant grant =>
    simp only [exec, Except.ok.injEq, Prod.mk.injEq] at h
    rw [← h.2]
    cases grant <;> simp [go_godot_new_variant, malloc]
  | add_element array element index =>
    simp only [exec] at h
    split at h
    · cases h
    · rename_i m1 hcall
      cases h
      exact le_of_eq (add_element_heap_length P _ _ _ _ _ hcall).symm
  | assign p v =>
    simp only [exec] at h
    split at h
    · cases h
    · rename_i m1 hst
      cases h
      exact le_of_eq (store_variant_heap_length P _ _ _ _ hst).symm

/-- A defined run of `c :: cs` is a defined step followed by a defined run. -/
theorem run_cons_inv (P : Platform) (c : Call) (cs : List Call) (m0 m : Mem)
    (rets : List (Option Ptr)) (h : run P (c :: cs) m0 = Except.ok (rets, m)) :
    ∃ r m1 rs, exec P c m0 = Except.ok (r, m1) ∧ run P cs m1 = Except.ok (rs, m) ∧
      rets = r :: rs := by
  simp only [run] at h
  split at h
  · cases h
  · rename_i r m1 hex
    split at h
    · cases h
    · rename_i rs m2 hrun
      cases h
      exact ⟨r, m1, rs, hex, hrun, rfl⟩

/-- What `go_godot_new_variant` returns in a step. -/
theorem exec_new_variant (P : Platform) (grant : Bool) (m m' : Mem) (r : Option Ptr)
    (h : exec P (Call.new_variant grant) m = Except.ok (r, m')) :
    r = some (if grant then Ptr.heap m.heap.length else Ptr.null) ∧
      m'.heap.length = m.heap.length + (if grant then 1 else 0) := by
  simp only [exec, Except.ok.injEq, Prod.mk.injEq] at h
  rw [← h.1, ← h.2]
  cases grant <;> simp [go_godot_new_variant, malloc]

/-- In a defined run, a later `go_godot_new_variant` call returns null when
refused and otherwise a block no older than the run's first memory. -/
theorem run_new_variant_ret (P : Platform) (calls : List Call) :
    ∀ (m0 m : Mem) (rets : List (Option Ptr)) (j : Nat) (g : Bool),
      run P calls m0 = Except.ok (rets, m) → calls[j]? = some (Call.new_variant g) →
      ∃ p, rets[j]? = some (some p) ∧
        (g = false → p = Ptr.null) ∧ (g = true → ∃ b, p = Ptr.heap b ∧ m0.heap.length ≤ b) := by
  induction calls with
  | nil => intro m0 m rets j g _ hj; simp at hj
  | cons c cs ih =>
    intro m0 m rets j g hrun hj
    obtain ⟨r, m1, rs, hex, hrest, rfl⟩ := run_cons_inv P c cs m0 m rets hrun
    cases j with
    | zero =>
      simp only [List.getElem?_cons_zero, Option.some.injEq] at hj
      subst hj
      obtain ⟨hr, -⟩ := exec_new_variant P g m0 m1 r hex
      subst hr
      refine ⟨if g = true then Ptr.heap m0.heap.length else Ptr.null, by simp, ?_, ?_⟩
      · intro hg; simp [hg]
      · intro hg; exact ⟨m0.heap.length, by simp [hg], le_refl _⟩
    | succ j =>
      simp only [List.getElem?_cons_succ] at hj
      obtain ⟨p, hp, hf, ht⟩ := ih m1 m rs j g hrest hj
      refine ⟨p, by simpa using hp, hf, ?_⟩
      intro hg
      obtain ⟨b, hb, hle⟩ := ht hg
      exact ⟨b, hb, le_trans (exec_heap_mono P c m0 m1 r hex) hle⟩

/-! ## The claims -/

/-- C2 (amended): for every length with `0 ≤ length` whose byte count
`sizeof(godot_variant *) * length` does not exceed `SIZE_MAX`,
`go_godot_variant_build_array(length)` asks the allocator for exactly
`sizeof(godot_variant *) * length` bytes, and when the request is granted the
returned storage is a fresh block of that size in which slot `i` can be written
exactly for `0 ≤ i < length`. -/
theorem build_array_request_exact (P : Platform) (grant : Bool) (length : Int) (m : Mem)
    (h0 : 0 ≤ length) (hfit : (P.ptrSize : Int) * length < (P.sizeMod : Int)) :
    (go_godot_variant_build_array P grant length m).2.requests
        = m.requests ++ [P.ptrSize * length.toNat] ∧
    (go_godot_variant_build_array P true length m).1 = Ptr.heap m.heap.length ∧
    (go_godot_variant_build_array P true length m).2.heap
        = m.heap ++ [⟨P.ptrSize * length.toNat, Obj.raw⟩] ∧
    ∀ (i : Int) (v : Ptr),
      (∃ m', store_ptr P (go_godot_variant_build_array P true length m).1 i v
          (go_godot_variant_build_array P true length m).2 = Except.ok m')
        ↔ (0 ≤ i ∧ i < length) := by
  have hb := array_bytes_exact P length h0 hfit
  refine ⟨?_, ?_⟩
  · cases grant <;> simp [go_godot_variant_build_array, malloc, hb]
  · simp only [go_godot_variant_build_array, malloc_grant, hb]
    refine ⟨trivial, trivial, ?_⟩
    intro i v
    rw [store_ptr_fresh, ← slot_fits_iff P length i h0]
    split <;> simp_all

/-- On a 64-bit target the largest `int` length, `INT_MAX`, meets the
hypotheses of C2 (amended). -/
theorem build_array_request_exact_witness :
    (go_godot_variant_build_array lp64 true lp64.INT_MAX Mem.empty).2.requests
        = [] ++ [8 * 2147483647] ∧
    (go_godot_variant_build_array lp64 true lp64.INT_MAX Mem.empty).1 = Ptr.heap 0 ∧
    (go_godot_variant_build_array lp64 true lp64.INT_MAX Mem.empty).2.heap
        = [] ++ [⟨8 * 2147483647, Obj.raw⟩] ∧
    ∀ (i : Int) (v : Ptr),
      (∃ m', store_ptr lp64 (go_godot_variant_build_array lp64 true lp64.INT_MAX Mem.empty).1 i v
          (go_godot_variant_build_array lp64 true lp64.INT_MAX Mem.empty).2 = Except.ok m')
        ↔ (0 ≤ i ∧ i < lp64.INT_MAX) :=
  build_array_request_exact lp64 true lp64.INT_MAX Mem.empty (by decide) (by decide)

/-- C2 (as stated) fails on a 32-bit target: `length = 2^30` lies between 0 and
`INT_MAX`, yet `4 * 2^30` wraps to 0 in `size_t`, so the allocator is asked for
0 bytes and not even slot 0 of the returned storage can be written. -/
theorem build_array_request_wraps :
    (0 : Int) ≤ 2 ^ 30 ∧ (2 ^ 30 : Int) ≤ ilp32.INT_MAX ∧
    (go_godot_variant_build_array ilp32 true (2 ^ 30) Mem.empty).2.requests = [0] ∧
    (0 : Int) ≠ (ilp32.ptrSize : Int) * 2 ^ 30 ∧
    store_ptr ilp32 (go_godot_variant_build_array ilp32 true (2 ^ 30) Mem.empty).1 0 Ptr.null
      (go_godot_variant_build_array ilp32 true (2 ^ 30) Mem.empty).2
      = Except.error Fault.out_of_bounds := by
  decide

/-- C5: neither allocating function looks at what the allocator returned.
Each returns the allocator's result and memory as they are: when the request
is refused the caller gets the null address and no block has been added, and
when it is granted the caller gets the address of the new block. -/
theorem allocation_result_unchecked (P : Platform) (grant : Bool) (length : Int) (m : Mem) :
    go_godot_variant_build_array P grant length m = malloc grant (array_bytes P length) m ∧
    go_godot_new_variant P grant m = malloc grant P.varSize m ∧
    (go_godot_variant_build_array P false length m).1 = Ptr.null ∧
    (go_godot_variant_build_array P false length m).2.heap = m.heap ∧
    (go_godot_new_variant P false m).1 = Ptr.null ∧
    (go_godot_new_variant P false m).2.heap = m.heap ∧
    (go_godot_variant_build_array P true length m).1 = Ptr.heap m.heap.length ∧
    (go_godot_variant_build_array P true length m).2.heap
      = m.heap ++ [⟨array_bytes P length, Obj.raw⟩] ∧
    (go_godot_new_variant P true m).1 = Ptr.heap m.heap.length ∧
    (go_godot_new_variant P true m).2.heap = m.heap ++ [⟨P.varSize, Obj.raw⟩] := by
  simp [go_godot_variant_build_array, go_godot_new_variant, malloc]

/-- C9: a call to `go_godot_new_variant()` adds exactly one entry to the
allocator's request log, `sizeof(godot_variant)`; no existing block or frame
changes and every variant read gives what it gave before; a granted request
returns the address of the new block, which is left raw (reading it as a
variant is not defined), and a refused one returns null. -/
theorem new_variant_single_request (P : Platform) (grant : Bool) (m : Mem) :
    (go_godot_new_variant P grant m).2.requests = m.requests ++ [P.varSize] ∧
    (go_godot_new_variant P grant m).2.frames = m.frames ∧
    (∀ p, load_variant (go_godot_new_variant P grant m).2 p = load_variant m p) ∧
    (go_godot_new_variant P true m).1 = Ptr.heap m.heap.length ∧
    (go_godot_new_variant P true m).2.heap = m.heap ++ [⟨P.varSize, Obj.raw⟩] ∧
    load_variant (go_godot_new_variant P true m).2 (go_godot_new_variant P true m).1 = none ∧
    (go_godot_new_variant P false m).1 = Ptr.null ∧
    (go_godot_new_variant P false m).2.heap = m.heap := by
  refine ⟨?_, ?_, ?_, ?_, ?_, ?_, ?_, ?_⟩
  · cases grant <;> simp [go_godot_new_variant, malloc]
  · cases grant <;> simp [go_godot_new_variant, malloc]
  · intro p
    exact load_variant_malloc grant P.varSize m p
  · simp [go_godot_new_variant, malloc]
  · simp [go_godot_new_variant, malloc]
  · simp [go_godot_new_variant, malloc, load_variant]
  · simp [go_godot_new_variant, malloc]
  · simp [go_godot_new_variant, malloc]

/-- C10: a negative `length` is not rejected.  The call is the allocator call
for `(sizeof(godot_variant *) * (2^w + length)) mod 2^w` bytes, `w` the width of
`size_t`; that count lies in `[0, 2^w)` and differs from
`sizeof(godot_variant *) * length`; the result is whatever the allocator
returns.  For `-2^w ≤ length` the converted operand is `2^w + length`. -/
theorem build_array_negative_length (P : Platform) (grant : Bool) (length : Int) (m : Mem)
    (hneg : length < 0) :
    go_godot_variant_build_array P grant length m
      = malloc grant
          (((P.ptrSize : Int) * ((2 : Int) ^ P.sizeBits + length)) % (2 : Int) ^ P.sizeBits).toNat
          m ∧
    (go_godot_variant_build_array P grant length m).2.requests
      = m.requests ++
          [(((P.ptrSize : Int) * ((2 : Int) ^ P.sizeBits + length)) % (2 : Int) ^ P.sizeBits).toNat] ∧
    0 ≤ ((P.ptrSize : Int) * ((2 : Int) ^ P.sizeBits + length)) % (2 : Int) ^ P.sizeBits ∧
    ((P.ptrSize : Int) * ((2 : Int) ^ P.sizeBits + length)) % (2 : Int) ^ P.sizeBits
      < (2 : Int) ^ P.sizeBits ∧
    ((P.ptrSize : Int) * ((2 : Int) ^ P.sizeBits + length)) % (2 : Int) ^ P.sizeBits
      ≠ (P.ptrSize : Int) * length ∧
    (-((2 : Int) ^ P.sizeBits) ≤ length →
      (to_size_t P length : Int) = (2 : Int) ^ P.sizeBits + length) := by
  have hM : (0 : Int) < (2 : Int) ^ P.sizeBits := by positivity
  have hMe : ((P.sizeMod : Nat) : Int) = (2 : Int) ^ P.sizeBits := by
    simp [Platform.sizeMod]
  have hnn : 0 ≤ ((P.ptrSize : Int) * ((2 : Int) ^ P.sizeBits + length)) % (2 : Int) ^ P.sizeBits :=
    Int.emod_nonneg _ (ne_of_gt hM)
  have hbytes : array_bytes P length
      = (((P.ptrSize : Int) * ((2 : Int) ^ P.sizeBits + length)) % (2 : Int) ^ P.sizeBits).toNat := by
    have hc := array_bytes_cast P length
    rw [hMe] at hc
    have : ((P.ptrSize : Int) * ((2 : Int) ^ P.sizeBits + length)) % (2 : Int) ^ P.sizeBits
        = ((P.ptrSize : Int) * length) % (2 : Int) ^ P.sizeBits := by
      rw [mul_add, Int.add_emod, Int.mul_emod_left, zero_add, Int.emod_emod_of_dvd _ (dvd_refl _)]
    rw [this, ← hc]
    simp
  have hptr : (0 : Int) < (P.ptrSize : Int) := by exact_mod_cast P.ptrSize_pos
  refine ⟨?_, ?_, hnn, Int.emod_lt_of_pos _ hM, ?_, ?_⟩
  · simp [go_godot_variant_build_array, hbytes]
  · cases grant <;> simp [go_godot_variant_build_array, malloc, hbytes]
  · intro heq
    have hlt : (P.ptrSize : Int) * length < 0 := mul_neg_of_pos_of_neg hptr hneg
    omega
  · intro hge
    unfold to_size_t
    rw [hMe, Int.toNat_of_nonneg (Int.emod_nonneg _ (ne_of_gt hM))]
    have h1 : length % (2 : Int) ^ P.sizeBits = (length + (2 : Int) ^ P.sizeBits) % (2 : Int) ^ P.sizeBits := by
      simp
    rw [h1, Int.emod_eq_of_lt (by omega) (by omega)]
    ring

/-- On a 64-bit target, `length = -1` asks the allocator for `2^64 - 8` bytes. -/
theorem build_array_negative_length_witness :
    (-1 : Int) < 0 ∧
    (go_godot_variant_build_array lp64 true (-1) Mem.empty).2.requests = [18446744073709551608] ∧
    go_godot_variant_build_array lp64 true (-1) Mem.empty
      = malloc true
          (((lp64.ptrSize : Int) * ((2 : Int) ^ lp64.sizeBits + -1)) % (2 : Int) ^ lp64.sizeBits).toNat
          Mem.empty :=
  ⟨by decide, by decide,
    (build_array_negative_length lp64 true (-1) Mem.empty (by decide)).1⟩

/-- C6: a call with a live element and an in-range slot is defined and
touches nothing but slot `index` of `array`: every variant read, that of
`*element` included, gives what it gave before; every other slot of every
pointer array reads as before; the heap has the same blocks with the same
sizes; and the allocator's request log is unchanged. -/
theorem add_element_frame (P : Platform) (m : Mem) (array element : Ptr) (index : Int)
    (v : godot_variant) (hel : load_variant m element = some v)
    (hin : slot_in_range P m array index = true) :
    ∃ m', go_godot_variant_add_element P array element index m = Except.ok m' ∧
      load_variant m' element = some v ∧
      (∀ p, load_variant m' p = load_variant m p) ∧
      (∀ a j, ¬ (a = array ∧ j = index) → load_ptr P m' a j = load_ptr P m a j) ∧
      m'.heap.map Block.size = m.heap.map Block.size ∧
      m'.requests = m.requests := by
  obtain ⟨b, blk, cells, rfl, hb, hc, hi, hle, -, hcall⟩ :=
    add_element_spec P m array element index v hel hin
  refine ⟨_, hcall, ?_, ?_, ?_, ?_, rfl⟩
  · rw [load_variant_after_store m b blk cells _ _ v hb hc]
    exact hel
  · intro p
    exact load_variant_after_store m b blk cells _ _ v hb hc p
  · intro a j hne
    exact load_ptr_after_store P m b blk cells _ index _ hb hc hi a j hne
  · apply List.ext_getElem?
    intro k
    by_cases hk : b = k
    · subst hk
      obtain ⟨hlt, hget⟩ := List.getElem?_eq_some.1 hb
      simp [List.getElem?_map, List.getElem?_set, hlt, hget]
    · simp [List.getElem?_map, List.getElem?_set_ne hk]

/-- The scenario of the specification meets the hypotheses of C6: `v0` is
live and slot 0 of the three-slot array is in range. -/
theorem add_element_frame_witness :
    load_variant scenario_mem (Ptr.heap 1) = some v42 ∧
    slot_in_range lp64 scenario_mem (Ptr.heap 0) 0 = true ∧
    ∃ m', go_godot_variant_add_element lp64 (Ptr.heap 0) (Ptr.heap 1) 0 scenario_mem
        = Except.ok m' ∧
      load_variant m' (Ptr.heap 1) = some v42 ∧
      (∀ p, load_variant m' p = load_variant scenario_mem p) ∧
      (∀ a j, ¬ (a = Ptr.heap 0 ∧ j = 0) →
        load_ptr lp64 m' a j = load_ptr lp64 scenario_mem a j) ∧
      m'.heap.map Block.size = scenario_mem.heap.map Block.size ∧
      m'.requests = scenario_mem.requests :=
  ⟨by decide, by decide,
    add_element_frame lp64 scenario_mem (Ptr.heap 0) (Ptr.heap 1) 0 v42 (by decide) (by decide)⟩

/-- C8: a call with a live element and an in-range slot copies `*element` by
value into the local of a new frame, numbered `m.frames.length`, and stores the
address of that local into `array[index]`.  At the end of the body the local
is live and holds the element's value.  The stored address is not `element`,
is not the address of a heap block, and no allocator request is made for it;
the frame did not exist before the call and is dead once the call has
returned, so reading through the stored address is then undefined. -/
theorem add_element_stores_local_address (P : Platform) (m : Mem) (array element : Ptr)
    (index : Int) (v : godot_variant) (hel : load_variant m element = some v)
    (hin : slot_in_range P m array index = true) :
    ∃ m1 m', add_element_body P array element index m = Except.ok m1 ∧
      go_godot_variant_add_element P array element index m = Except.ok m' ∧
      m1.frames = m.frames ++ [⟨true, v⟩] ∧
      load_variant m1 (Ptr.stack m.frames.length) = some v ∧
      load_ptr P m1 array index = some (Ptr.stack m.frames.length) ∧
      load_ptr P m' array index = some (Ptr.stack m.frames.length) ∧
      Ptr.stack m.frames.length ≠ element ∧
      (∀ b, Ptr.stack m.frames.length ≠ Ptr.heap b) ∧
      m'.heap.length = m.heap.length ∧
      m'.requests = m.requests ∧
      m'.frames = m.frames ++ [⟨false, v⟩] ∧
      load_variant m (Ptr.stack m.frames.length) = none ∧
      load_variant m' (Ptr.stack m.frames.length) = none := by
  obtain ⟨b, blk, cells, rfl, hb, hc, hi, hle, hbody, hcall⟩ :=
    add_element_spec P m array element index v hel hin
  refine ⟨_, _, hbody, hcall, rfl, ?_, ?_, ?_, ?_, ?_, ?_, rfl, rfl,
    load_variant_next_frame m, ?_⟩
  · simp [load_variant]
  · exact load_ptr_stored P m b blk cells _ index _ hb hi hle
  · exact load_ptr_stored P m b blk cells _ index _ hb hi hle
  · intro heq
    rw [← heq, load_variant_next_frame] at hel
    cases hel
  · intro b2 h
    cases h
  · simp
  · rw [load_variant_after_store m b blk cells _ _ v hb hc]
    exact load_variant_next_frame m

/-- The scenario of the specification meets the hypotheses of C8. -/
theorem add_element_stores_local_address_witness :
    load_variant scenario_mem (Ptr.heap 1) = some v42 ∧
    slot_in_range lp64 scenario_mem (Ptr.heap 0) 0 = true ∧
    ∃ m1 m', add_element_body lp64 (Ptr.heap 0) (Ptr.heap 1) 0 scenario_mem = Except.ok m1 ∧
      go_godot_variant_add_element lp64 (Ptr.heap 0) (Ptr.heap 1) 0 scenario_mem
        = Except.ok m' ∧
      m1.frames = scenario_mem.frames ++ [⟨true, v42⟩] ∧
      load_variant m1 (Ptr.stack scenario_mem.frames.length) = some v42 ∧
      load_ptr lp64 m1 (Ptr.heap 0) 0 = some (Ptr.stack scenario_mem.frames.length) ∧
      load_ptr lp64 m' (Ptr.heap 0) 0 = some (Ptr.stack scenario_mem.frames.length) ∧
      Ptr.stack scenario_mem.frames.length ≠ Ptr.heap 1 ∧
      (∀ b, Ptr.stack scenario_mem.frames.length ≠ Ptr.heap b) ∧
      m'.heap.length = scenario_mem.heap.length ∧
      m'.requests = scenario_mem.requests ∧
      m'.frames = scenario_mem.frames ++ [⟨false, v42⟩] ∧
      load_variant scenario_mem (Ptr.stack scenario_mem.frames.length) = none ∧
      load_variant m' (Ptr.stack scenario_mem.frames.length) = none :=
  ⟨by decide, by decide,
    add_element_stores_local_address lp64 scenario_mem (Ptr.heap 0) (Ptr.heap 1) 0 v42
      (by decide) (by decide)⟩

/-- C1 (the code at the specification's scenario): on a 64-bit target, after
`a := build_array(3)`, `v0 := new_variant()`, `*v0 = 42`, the call
`add_element(a, v0, 0)` returns with `a[0]` holding the address of the local of
frame 0, which is dead: reading `*a[0]` is undefined instead of giving 42, right
after the call and after one more allocation, while `*v0` still reads 42. -/
theorem add_element_scenario_dangling :
    run lp64 scenario_setup Mem.empty
      = Except.ok ([some (Ptr.heap 0), some (Ptr.heap 1), none], scenario_mem) ∧
    ∃ m4, go_godot_variant_add_element lp64 (Ptr.heap 0) (Ptr.heap 1) 0 scenario_mem
        = Except.ok m4 ∧
      load_ptr lp64 m4 (Ptr.heap 0) 0 = some (Ptr.stack 0) ∧
      load_variant m4 (Ptr.stack 0) = none ∧
      load_variant m4 (Ptr.stack 0) ≠ some v42 ∧
      load_variant (go_godot_new_variant lp64 true m4).2 (Ptr.stack 0) = none ∧
      load_variant m4 (Ptr.heap 1) = some v42 := by
  refine ⟨by decide, ⟨[⟨24, Obj.ptrs [(0, Ptr.stack 0)]⟩, ⟨24, Obj.variant v42⟩],
    [⟨false, v42⟩], [24, 24]⟩, ?_, ?_, ?_, ?_, ?_, ?_⟩ <;> decide

/-- C3 (amended): `go_godot_variant_build_array(0)` is the allocator call for
zero bytes and returns its result as it is: the address of a new, non-null,
zero-byte block when the allocator grants the request, and the null address
when it refuses.  In both cases no slot of the result is in range, and no
call of `go_godot_variant_add_element` on the result is defined, whatever the
element and the index. -/
theorem build_array_zero (P : Platform) (grant : Bool) (m : Mem) :
    go_godot_variant_build_array P grant 0 m = malloc grant 0 m ∧
    (go_godot_variant_build_array P true 0 m).1 = Ptr.heap m.heap.length ∧
    (go_godot_variant_build_array P true 0 m).2.heap = m.heap ++ [⟨0, Obj.raw⟩] ∧
    (go_godot_variant_build_array P false 0 m).1 = Ptr.null ∧
    (∀ index, slot_in_range P (go_godot_variant_build_array P grant 0 m).2
        (go_godot_variant_build_array P grant 0 m).1 index = false) ∧
    (∀ element index m',
      go_godot_variant_add_element P (go_godot_variant_build_array P grant 0 m).1 element index
        (go_godot_variant_build_array P grant 0 m).2 ≠ Except.ok m') := by
  have hz : array_bytes P 0 = 0 := by simp [array_bytes, size_mul, to_size_t]
  have hp := P.ptrSize_pos
  have hrange : ∀ index, slot_in_range P (go_godot_variant_build_array P grant 0 m).2
      (go_godot_variant_build_array P grant 0 m).1 index = false := by
    intro index
    cases grant with
    | false => simp [go_godot_variant_build_array, malloc, slot_in_range]
    | true =>
      simp only [go_godot_variant_build_array, malloc_grant, hz, slot_in_range]
      simp only [List.getElem?_concat_length, Bool.and_eq_false_imp, decide_eq_false_iff_not]
      intro _ hcon
      have : 0 < (index.toNat + 1) * P.ptrSize := Nat.mul_pos (Nat.succ_pos _) hp
      omega
  refine ⟨?_, ?_, ?_, ?_, hrange, ?_⟩
  · simp [go_godot_variant_build_array, hz]
  · simp [go_godot_variant_build_array, malloc]
  · simp [go_godot_variant_build_array, malloc, hz]
  · simp [go_godot_variant_build_array, malloc]
  · intro element index m' hok
    have h := (add_element_ok_inv P _ m' _ element index hok).2
    rw [hrange index] at h
    cases h

/-- C3 (as stated) fails: an allocator that answers a zero-byte request with
null is within its contract, and then `go_godot_variant_build_array(0)` returns
the null address. -/
theorem build_array_zero_null :
    (go_godot_variant_build_array lp64 false 0 Mem.empty).2.requests = [0] ∧
    (go_godot_variant_build_array lp64 false 0 Mem.empty).1 = Ptr.null := by
  decide

/-- C7 (amended): `go_godot_variant_add_element` does not check `index`.  Let
`0 ≤ n` with `sizeof(godot_variant *) * n ≤ SIZE_MAX`.  A granted
`go_godot_variant_build_array(n)` returns a new block of
`sizeof(godot_variant *) * n` bytes.  In every memory where a block of that
size is used as a pointer array, and for every live element, slot `index` is in
range exactly when `0 ≤ index < n`; in that case the call is defined and leaves
the block a pointer array of the same size, and otherwise (`index < 0` or
`index ≥ n`) the call is a write outside the allocation. -/
theorem add_element_in_bounds_iff (P : Platform) (n : Int) (h0 : 0 ≤ n)
    (hfit : (P.ptrSize : Int) * n < (P.sizeMod : Int)) :
    (∀ m, (go_godot_variant_build_array P true n m).1 = Ptr.heap m.heap.length ∧
      (go_godot_variant_build_array P true n m).2.heap[m.heap.length]?
        = some ⟨P.ptrSize * n.toNat, Obj.raw⟩) ∧
    (∀ (m : Mem) (b : Nat) (blk : Block) (element : Ptr) (v : godot_variant) (index : Int),
      m.heap[b]? = some blk → blk.size = P.ptrSize * n.toNat → blk.cells.isSome = true →
      load_variant m element = some v →
        (slot_in_range P m (Ptr.heap b) index = true ↔ (0 ≤ index ∧ index < n)) ∧
        ((0 ≤ index ∧ index < n) →
          ∃ m', go_godot_variant_add_element P (Ptr.heap b) element index m = Except.ok m' ∧
            ∃ blk', m'.heap[b]? = some blk' ∧ blk'.size = blk.size ∧
              blk'.cells.isSome = true) ∧
        (¬ (0 ≤ index ∧ index < n) →
          go_godot_variant_add_element P (Ptr.heap b) element index m
            = Except.error Fault.out_of_bounds)) := by
  have hbytes := array_bytes_exact P n h0 hfit
  refine ⟨?_, ?_⟩
  · intro m
    simp [go_godot_variant_build_array, malloc, hbytes]
  · intro m b blk element v index hb hsz hc hel
    have hiff : slot_in_range P m (Ptr.heap b) index = true ↔ (0 ≤ index ∧ index < n) := by
      rw [← slot_fits_iff P n index h0, ← hsz]
      simp [slot_in_range, hb, hc]
    refine ⟨hiff, ?_, ?_⟩
    · intro hr
      have hin := hiff.2 hr
      obtain ⟨b2, blk2, cells, hbeq, hb2, -, -, -, -, hcall⟩ :=
        add_element_spec P m (Ptr.heap b) element index v hel hin
      cases hbeq
      rw [hb] at hb2
      cases hb2
      refine ⟨_, hcall,
        ⟨blk.size, Obj.ptrs ((index.toNat, Ptr.stack m.frames.length) :: cells)⟩, ?_, rfl, rfl⟩
      simp [block_lt_length m b blk hb]
    · intro hr
      apply add_element_out_of_bounds P m b blk element index v hel hb hc
      rw [hsz, slot_fits_iff P n index h0]
      exact hr

/-- On a 64-bit target `n = 3` meets the hypotheses of C7 (amended). -/
theorem add_element_in_bounds_iff_witness :
    (0 : Int) ≤ 3 ∧ (lp64.ptrSize : Int) * 3 < (lp64.sizeMod : Int) ∧
    (go_godot_variant_build_array lp64 true 3 Mem.empty).1 = Ptr.heap 0 ∧
    (slot_in_range lp64 scenario_mem (Ptr.heap 0) 2 = true ↔ ((0 : Int) ≤ 2 ∧ (2 : Int) < 3)) ∧
    (¬ ((0 : Int) ≤ 3 ∧ (3 : Int) < 3) →
      go_godot_variant_add_element lp64 (Ptr.heap 0) (Ptr.heap 1) 3 scenario_mem
        = Except.error Fault.out_of_bounds) :=
  ⟨by decide, by decide,
    ((add_element_in_bounds_iff lp64 3 (by decide) (by decide)).1 Mem.empty).1,
    ((add_element_in_bounds_iff lp64 3 (by decide) (by decide)).2 scenario_mem 0
      ⟨24, Obj.raw⟩ (Ptr.heap 1) v42 2 (by decide) (by decide) (by decide) (by decide)).1,
    ((add_element_in_bounds_iff lp64 3 (by decide) (by decide)).2 scenario_mem 0
      ⟨24, Obj.raw⟩ (Ptr.heap 1) v42 3 (by decide) (by decide) (by decide) (by decide)).2.2⟩

/-- C7 (as stated) fails on a 32-bit target: the array allocated by
`go_godot_variant_build_array(2^30)` has zero bytes, because `4 * 2^30` wraps
to 0, so with a live element the write to slot 0 is out of bounds although
`0 ≤ 0 < 2^30`. -/
theorem add_element_wrapped_array :
    load_variant (go_godot_variant_build_array ilp32 true (2 ^ 30) one_variant_mem).2
      (Ptr.heap 0) = some v42 ∧
    ((0 : Int) ≤ 0 ∧ (0 : Int) < 2 ^ 30) ∧
    go_godot_variant_add_element ilp32
      (go_godot_variant_build_array ilp32 true (2 ^ 30) one_variant_mem).1 (Ptr.heap 0) 0
      (go_godot_variant_build_array ilp32 true (2 ^ 30) one_variant_mem).2
      = Except.error Fault.out_of_bounds := by
  decide

/-- C4 (amended): in every defined sequence of calls, two calls of
`go_godot_new_variant()` return distinct addresses, unless the allocator
refused both requests, in which case both return the null address. -/
theorem new_variant_distinct (P : Platform) (calls : List Call) :
    ∀ (m0 m : Mem) (rets : List (Option Ptr)) (i j : Nat) (gi gj : Bool),
      run P calls m0 = Except.ok (rets, m) → i < j →
      calls[i]? = some (Call.new_variant gi) → calls[j]? = some (Call.new_variant gj) →
      ∃ pi pj, rets[i]? = some (some pi) ∧ rets[j]? = some (some pj) ∧
        (pi ≠ pj ∨ (pi = Ptr.null ∧ pj = Ptr.null ∧ gi = false ∧ gj = false)) := by
  induction calls with
  | nil => intro m0 m rets i j gi gj _ _ hi; simp at hi
  | cons c cs ih =>
    intro m0 m rets i j gi gj hrun hij hi hj
    obtain ⟨r, m1, rs, hex, hrest, rfl⟩ := run_cons_inv P c cs m0 m rets hrun
    cases j with
    | zero => omega
    | succ j =>
      simp only [List.getElem?_cons_succ] at hj
      cases i with
      | succ i =>
        simp only [List.getElem?_cons_succ] at hi
        obtain ⟨pi, pj, h1, h2, h3⟩ := ih m1 m rs i j gi gj hrest (by omega) hi hj
        exact ⟨pi, pj, by simpa using h1, by simpa using h2, h3⟩
      | zero =>
        simp only [List.getElem?_cons_zero, Option.some.injEq] at hi
        subst hi
        obtain ⟨hr, hlen⟩ := exec_new_variant P gi m0 m1 r hex
        subst hr
        obtain ⟨pj, hpj, hf, ht⟩ := run_new_variant_ret P cs m1 m rs j gj hrest hj
        refine ⟨if gi = true then Ptr.heap m0.heap.length else Ptr.null, pj, by simp,
          by simpa using hpj, ?_⟩
        cases gi with
        | true =>
          left
          cases gj with
          | false => rw [hf rfl]; simp
          | true =>
            obtain ⟨b, hb, hle⟩ := ht rfl
            rw [hb]
            simp only [if_true, ne_eq, Ptr.heap.injEq]
            simp only [if_true] at hlen
            omega
        | false =>
          cases gj with
          | false => right; exact ⟨by simp, hf rfl, rfl, rfl⟩
          | true =>
            left
            obtain ⟨b, hb, -⟩ := ht rfl
            rw [hb]
            simp

/-- In the run `new_variant(); build_array(2); new_variant()` with every
request granted, the two variants are blocks 0 and 2. -/
theorem new_variant_distinct_witness :
    run lp64 [Call.new_variant true, Call.build_array true 2, Call.new_variant true] Mem.empty
      = Except.ok ([some (Ptr.heap 0), some (Ptr.heap 1), some (Ptr.heap 2)],
          ⟨[⟨24, Obj.raw⟩, ⟨16, Obj.raw⟩, ⟨24, Obj.raw⟩], [], [24, 16, 24]⟩) ∧
    ∃ pi pj,
      [some (Ptr.heap 0), some (Ptr.heap 1), some (Ptr.heap 2)][0]? = some (some pi) ∧
      [some (Ptr.heap 0), some (Ptr.heap 1), some (Ptr.heap 2)][2]? = some (some pj) ∧
      (pi ≠ pj ∨ (pi = Ptr.null ∧ pj = Ptr.null ∧ true = false ∧ true = false)) :=
  ⟨by decide,
    new_variant_distinct lp64
      [Call.new_variant true, Call.build_array true 2, Call.new_variant true] Mem.empty
      ⟨[⟨24, Obj.raw⟩, ⟨16, Obj.raw⟩, ⟨24, Obj.raw⟩], [], [24, 16, 24]⟩
      [some (Ptr.heap 0), some (Ptr.heap 1), some (Ptr.heap 2)] 0 2 true true
      (by decide) (by decide) (by decide) (by decide)⟩

/-- C4 (as stated) fails: when the allocator refuses two requests, the two
calls of `go_godot_new_variant()` return the same address, null. -/
theorem new_variant_both_null :
    run lp64 [Call.new_variant false, Call.new_variant false] Mem.empty
      = Except.ok ([some Ptr.null, some Ptr.null], ⟨[], [], [24, 24]⟩) ∧
    (go_godot_new_variant lp64 false Mem.empty).1
      = (go_godot_new_variant lp64 false (go_godot_new_variant lp64 false Mem.empty).2).1 := by
  decide

end GDNative
